import Mathlib

/-!
Verification development for the copilot-feedback-api repository.

The repository is a small Express/Node HTTP API that accepts chatbot
feedback.  The definitions below are a shallow embedding of the
tolerant-parsing variant of the server (the "Copilot Studio" variant): its
request-body normalizer middleware, its recursive field extractor
`findValueInObject`, the POST /feedback validation and record construction,
and the route/middleware registration order.  JavaScript values that can
appear in a freshly parsed JSON document are modelled by `JsonValue`.  JSON
numbers are modelled as integers, which covers every number the API
manipulates (ratings); objects keep their fields in insertion order, as
JavaScript objects do for string keys.
-/

mutual

/-- A parsed JSON value. -/
inductive JsonValue where
  | null
  | bool (b : Bool)
  | num (n : Int)
  | str (s : String)
  | arr (elems : JsonList)
  | obj (fields : JsonFields)

/-- The elements of a JSON array, in order. -/
inductive JsonList where
  | nil
  | cons (head : JsonValue) (tail : JsonList)

/-- The fields of a JSON object, in insertion order. -/
inductive JsonFields where
  | nil
  | cons (key : String) (value : JsonValue) (tail : JsonFields)

end

/-- Builds `JsonFields` from a list of pairs; convenience for writing
concrete objects. -/
def jsonFieldsOf : List (String × JsonValue) → JsonFields
  | [] => JsonFields.nil
  | (k, v) :: rest => JsonFields.cons k v (jsonFieldsOf rest)

/-- Builds `JsonList` from a list; convenience for writing concrete
arrays. -/
def jsonListOf : List JsonValue → JsonList
  | [] => JsonList.nil
  | v :: rest => JsonList.cons v (jsonListOf rest)

/-- A JSON object written from a list of fields. -/
def jobj (l : List (String × JsonValue)) : JsonValue :=
  JsonValue.obj (jsonFieldsOf l)

/-- A JSON array written from a list of elements. -/
def jarr (l : List JsonValue) : JsonValue :=
  JsonValue.arr (jsonListOf l)

/-- JavaScript truthiness of a parsed JSON value: `null`, `false`, `0` and
the empty string are falsy; every object and array (even empty) is
truthy. -/
def jsTruthy : JsonValue → Bool
  | JsonValue.null => false
  | JsonValue.bool b => b
  | JsonValue.num n => !(n == 0)
  | JsonValue.str s => !(s == "")
  | JsonValue.arr _ => true
  | JsonValue.obj _ => true

/-- The JavaScript test of `typeof v` being the string `object`: true for
`null`, arrays and objects, false for booleans, numbers and strings. -/
def isTypeofObject : JsonValue → Bool
  | JsonValue.null => true
  | JsonValue.arr _ => true
  | JsonValue.obj _ => true
  | _ => false

/-- Property lookup in the field list of an object.  Objects produced by
`JSON.parse` have unique keys (a repeated key keeps its first position with
its last value, handled at parse time in `insertField`), so first-match
lookup agrees with JavaScript property access. -/
def lookupField : JsonFields → String → Option JsonValue
  | JsonFields.nil, _ => none
  | JsonFields.cons k v fs, key => if k = key then some v else lookupField fs key

/-- Number of elements of a JSON array. -/
def JsonList.length : JsonList → Nat
  | JsonList.nil => 0
  | JsonList.cons _ tl => tl.length + 1

/-- Element of a JSON array at an index. -/
def JsonList.get? : JsonList → Nat → Option JsonValue
  | JsonList.nil, _ => none
  | JsonList.cons v _, 0 => some v
  | JsonList.cons _ tl, i + 1 => tl.get? i

/-- Numeric value of a list of decimal digit characters. -/
def digitsVal (cs : List Char) : Nat :=
  cs.foldl (fun a c => a * 10 + (c.toNat - 48)) 0

/-- Canonical decimal array-index strings (as character lists): `"0"`, or a
nonzero leading digit followed by digits.  Non-canonical spellings such as
`"007"` are not array indices in JavaScript. -/
def parseIndex? : List Char → Option Nat
  | [] => none
  | [c] => if c.isDigit then some (c.toNat - 48) else none
  | c :: rest =>
    if c.isDigit ∧ c ≠ '0' ∧ rest.all Char.isDigit then
      some (digitsVal (c :: rest))
    else none

/-- Array property lookup, as JavaScript `arr[key]` on own properties: a
canonical decimal index string returns the element, `"length"` returns the
length, anything else is `undefined` (`none`). -/
def arrGet (xs : JsonList) (key : String) : Option JsonValue :=
  if key = "length" then some (JsonValue.num (Int.ofNat xs.length))
  else
    match parseIndex? key.toList with
    | some i => xs.get? i
    | none => none

/-- Property access `v[key]` for a parsed JSON value; `none` models `undefined`. -/
def jsGet : JsonValue → String → Option JsonValue
  | JsonValue.obj fs, key => lookupField fs key
  | JsonValue.arr xs, key => arrGet xs key
  | _, _ => none

/-- The direct-match test of `findValueInObject` passes over a value that
is `null` or the empty string; any other bound value passes the test. -/
def directSkip : JsonValue → Bool
  | JsonValue.null => true
  | JsonValue.str s => s == ""
  | _ => false

/-- The "try direct matches first" loop of `findValueInObject`: keys are
tried in the order listed; a key bound to `undefined`, `null` or the empty
string is passed over, any other binding is returned at once. -/
def directMatch (v : JsonValue) : List String → Option JsonValue
  | [] => none
  | k :: ks =>
    match jsGet v k with
    | some w => if directSkip w then directMatch v ks else some w
    | none => directMatch v ks

mutual

/-- The function `findValueInObject(obj, keys)` from the POST /feedback
handler.  Its opening guard returns `null` unless the argument is truthy
and of JavaScript typeof object, which lets exactly arrays and objects
through; direct matches are tried first, then every value of the container
is searched in order with `Object.values`, descending into each value of
typeof object. -/
def findValueInObject : JsonValue → List String → Option JsonValue
  | JsonValue.obj fs, keys =>
    (match directMatch (JsonValue.obj fs) keys with
     | some w => some w
     | none => searchFields fs keys)
  | JsonValue.arr xs, keys =>
    (match directMatch (JsonValue.arr xs) keys with
     | some w => some w
     | none => searchElems xs keys)
  | _, _ => none

/-- The nested-search loop of `findValueInObject` over the values of an
object: a recursive result is returned only when truthy — the source tests
the found value before returning it — so a falsy result (`null`, `0`,
`false`) is passed over and the search continues with the next value. -/
def searchFields : JsonFields → List String → Option JsonValue
  | JsonFields.nil, _ => none
  | JsonFields.cons _ v fs, keys =>
    if isTypeofObject v then
      (match findValueInObject v keys with
       | some f => if jsTruthy f then some f else searchFields fs keys
       | none => searchFields fs keys)
    else searchFields fs keys

/-- The nested-search loop of `findValueInObject` over the elements of an
array (in JavaScript an array is of typeof object, so the source descends
into arrays exactly as into objects). -/
def searchElems : JsonList → List String → Option JsonValue
  | JsonList.nil, _ => none
  | JsonList.cons v vs, keys =>
    if isTypeofObject v then
      (match findValueInObject v keys with
       | some f => if jsTruthy f then some f else searchElems vs keys
       | none => searchElems vs keys)
    else searchElems vs keys

end

/-! ## A JSON parser modelling `JSON.parse`

Strict JSON as `JSON.parse` accepts it: a single value, optionally
surrounded by whitespace, with nothing after it.  Numbers are restricted to
integers (the only numbers the payloads of this API carry) and string escapes to
the single-character JSON escapes; a repeated object key keeps its first
position with its last value, as in JavaScript.  The recursion of
`parseValue` is made structural on a fuel that the top-level entry point
sets to the input length plus one, which is always enough because every
recursive call consumes at least one character first. -/

/-- The double-quote character. -/
def chQuote : Char := Char.ofNat 34

/-- The opening curly-bracket character. -/
def chLBrace : Char := Char.ofNat 123

/-- The closing curly-bracket character. -/
def chRBrace : Char := Char.ofNat 125

/-- JSON insignificant whitespace. -/
def isJsonWs (c : Char) : Bool :=
  c == ' ' || c == '\t' || c == '\n' || c == '\r'

/-- Skips insignificant whitespace. -/
def skipWs (cs : List Char) : List Char :=
  cs.dropWhile isJsonWs

/-- The single-character JSON string escapes. -/
def escChar? (c : Char) : Option Char :=
  if c = chQuote then some chQuote
  else if c = '\\' then some '\\'
  else if c = '/' then some '/'
  else if c = 'n' then some '\n'
  else if c = 't' then some '\t'
  else if c = 'r' then some '\r'
  else if c = 'b' then some (Char.ofNat 8)
  else if c = 'f' then some (Char.ofNat 12)
  else none

/-- Parses the remainder of a JSON string after its opening quote,
returning the decoded characters and the input after the closing quote.
Raw control characters are rejected, as `JSON.parse` rejects them.  The
`\u` escape is not modelled; no payload of this API uses it. -/
def parseStrChars : List Char → Except String (List Char × List Char)
  | [] => Except.error "Unterminated string in JSON"
  | c :: rest =>
    if c = chQuote then Except.ok ([], rest)
    else if c = '\\' then
      match rest with
      | [] => Except.error "Bad escape in JSON string"
      | e :: rest2 =>
        match escChar? e with
        | some ec =>
          (match parseStrChars rest2 with
           | Except.ok (s, r) => Except.ok (ec :: s, r)
           | Except.error m => Except.error m)
        | none => Except.error "Unsupported escape in JSON string"
    else if c.toNat < 32 then Except.error "Bad control character in JSON string"
    else
      match parseStrChars rest with
      | Except.ok (s, r) => Except.ok (c :: s, r)
      | Except.error m => Except.error m

/-- Parses a JSON natural-number literal (no leading zeros), returning the
value and the rest of the input. -/
def parseNatChars (cs : List Char) : Option (Nat × List Char) :=
  let ds := cs.takeWhile Char.isDigit
  if ds.isEmpty then none
  else if ds.length > 1 && ds.headD ' ' == '0' then none
  else some (digitsVal ds, cs.drop ds.length)

/-- Checks that the first list is a leading segment of the second. -/
def startsWithChars : List Char → List Char → Bool
  | [], _ => true
  | _ :: _, [] => false
  | a :: as, b :: bs => a == b && startsWithChars as bs

/-- Consumes the remaining characters of a keyword literal (`true`,
`false`, `null`). -/
def expectLit (lit : String) (cs : List Char) (v : JsonValue) :
    Except String (JsonValue × List Char) :=
  if startsWithChars lit.toList cs then Except.ok (v, cs.drop lit.length)
  else Except.error "Unexpected token in JSON"

/-- Adds a field to an object under construction with JavaScript duplicate
key semantics: a repeated key keeps its original position and takes the new
value; a new key is appended. -/
def insertField : JsonFields → String → JsonValue → JsonFields
  | JsonFields.nil, k, v => JsonFields.cons k v JsonFields.nil
  | JsonFields.cons k0 v0 fs, k, v =>
    if k0 = k then JsonFields.cons k0 v fs
    else JsonFields.cons k0 v0 (insertField fs k v)

/-- Parses one `"key": value` object member, the value by the supplied
parser. -/
def parseMemberWith (pv : List Char → Except String (JsonValue × List Char))
    (cs : List Char) : Except String ((String × JsonValue) × List Char) :=
  match skipWs cs with
  | [] => Except.error "Unterminated object in JSON"
  | c :: rest =>
    if c = chQuote then
      match parseStrChars rest with
      | Except.ok (k, r1) =>
        (match skipWs r1 with
         | ':' :: r2 =>
           (match pv r2 with
            | Except.ok (v, r3) => Except.ok ((String.mk k, v), r3)
            | Except.error m => Except.error m)
         | _ => Except.error "Expected colon in JSON object")
      | Except.error m => Except.error m
    else Except.error "Expected string key in JSON object"

/-- Parses the rest of a JSON object after its first member: a comma and a
member, repeatedly, then the closing bracket.  The step count is bounded by
the remaining input length. -/
def parseObjTail (pv : List Char → Except String (JsonValue × List Char)) :
    Nat → JsonFields → List Char → Except String (JsonValue × List Char)
  | 0, _, _ => Except.error "JSON object too long"
  | n + 1, acc, cs =>
    match skipWs cs with
    | [] => Except.error "Unterminated object in JSON"
    | c :: rest =>
      if c = chRBrace then Except.ok (JsonValue.obj acc, rest)
      else if c = ',' then
        match parseMemberWith pv rest with
        | Except.ok ((k, v), r) => parseObjTail pv n (insertField acc k v) r
        | Except.error m => Except.error m
      else Except.error "Expected comma or closing bracket in JSON object"

/-- Parses the rest of a JSON array after its first element. -/
def parseArrTail (pv : List Char → Except String (JsonValue × List Char)) :
    Nat → List JsonValue → List Char → Except String (JsonValue × List Char)
  | 0, _, _ => Except.error "JSON array too long"
  | n + 1, acc, cs =>
    match skipWs cs with
    | [] => Except.error "Unterminated array in JSON"
    | c :: rest =>
      if c = ']' then Except.ok (jarr acc.reverse, rest)
      else if c = ',' then
        match pv rest with
        | Except.ok (v, r) => parseArrTail pv n (v :: acc) r
        | Except.error m => Except.error m
      else Except.error "Expected comma or closing bracket in JSON array"

/-- Parses one JSON value from the input, returning it and the rest of the
input. -/
def parseValue : Nat → List Char → Except String (JsonValue × List Char)
  | 0, _ => Except.error "JSON input too deeply nested"
  | fuel + 1, cs =>
    match skipWs cs with
    | [] => Except.error "Unexpected end of JSON input"
    | c :: rest =>
      if c = chQuote then
        match parseStrChars rest with
        | Except.ok (s, r) => Except.ok (JsonValue.str (String.mk s), r)
        | Except.error m => Except.error m
      else if c = chLBrace then
        match skipWs rest with
        | [] => Except.error "Unterminated object in JSON"
        | d :: r2 =>
          if d = chRBrace then Except.ok (JsonValue.obj JsonFields.nil, r2)
          else
            match parseMemberWith (fun cs2 => parseValue fuel cs2) rest with
            | Except.ok ((k, v), r3) =>
              parseObjTail (fun cs2 => parseValue fuel cs2) (r3.length + 1)
                (JsonFields.cons k v JsonFields.nil) r3
            | Except.error m => Except.error m
      else if c = '[' then
        match skipWs rest with
        | [] => Except.error "Unterminated array in JSON"
        | d :: r2 =>
          if d = ']' then Except.ok (JsonValue.arr JsonList.nil, r2)
          else
            match parseValue fuel rest with
            | Except.ok (v, r3) =>
              parseArrTail (fun cs2 => parseValue fuel cs2) (r3.length + 1) [v] r3
            | Except.error m => Except.error m
      else if c = 't' then expectLit "rue" rest (JsonValue.bool true)
      else if c = 'f' then expectLit "alse" rest (JsonValue.bool false)
      else if c = 'n' then expectLit "ull" rest JsonValue.null
      else if c = '-' then
        match parseNatChars rest with
        | some (n, r) => Except.ok (JsonValue.num (-(Int.ofNat n)), r)
        | none => Except.error "Invalid number in JSON"
      else if c.isDigit then
        match parseNatChars (c :: rest) with
        | some (n, r) => Except.ok (JsonValue.num (Int.ofNat n), r)
        | none => Except.error "Invalid number in JSON"
      else Except.error "Unexpected token in JSON"

/-- Models `JSON.parse` on a list of characters: one value, optional
surrounding whitespace, nothing after it. -/
def parseJsonChars (cs : List Char) : Except String JsonValue :=
  match parseValue (cs.length + 1) cs with
  | Except.ok (v, r) =>
    if (skipWs r).isEmpty then Except.ok v
    else Except.error "Unexpected non-whitespace character after JSON"
  | Except.error m => Except.error m

/-- Models `JSON.parse` on a string. -/
def parseJson (s : String) : Except String JsonValue :=
  parseJsonChars s.toList

/-! ## The request-body normalizer middleware

The Copilot Studio middleware (registered first, for every POST with a
truthy text body) trims the body and strips a byte-order mark; then, if
the result starts with an equals sign followed by an opening curly
bracket, it parses the slice from index 2 — the input with BOTH leading
characters removed — as JSON; otherwise it parses the cleaned body
directly.  A parse failure is answered with a 400 response. -/

/-- The whitespace set of JavaScript trim (the members that can occur in
the payloads of this API, plus the Unicode space and line separators and
the byte-order mark, which JavaScript also trims). -/
def jsWhitespace (c : Char) : Bool :=
  c == ' ' || c == '\t' || c == '\n' || c == '\r' ||
  c == Char.ofNat 11 || c == Char.ofNat 12 || c == Char.ofNat 160 ||
  c == Char.ofNat 8232 || c == Char.ofNat 8233 || c == Char.ofNat 65279

/-- JavaScript trim: strip leading and trailing whitespace. -/
def jsTrim (cs : List Char) : List Char :=
  ((cs.dropWhile jsWhitespace).reverse.dropWhile jsWhitespace).reverse

/-- Strips one leading byte-order mark, as the replace call of the source does. -/
def stripBOM : List Char → List Char
  | [] => []
  | c :: rest => if c = Char.ofNat 65279 then rest else c :: rest

/-- The body normalizer: trim, strip a BOM, then — exactly as the source
does — on a body starting with an equals sign followed by an opening
curly bracket, parse the slice from index 2 (both leading characters
removed); otherwise parse the cleaned body. -/
def normalizeBody (s : String) : Except String JsonValue :=
  let clean := stripBOM (jsTrim s.toList)
  match clean with
  | c1 :: c2 :: rest =>
    if c1 = '=' ∧ c2 = chLBrace then parseJsonChars rest
    else parseJsonChars clean
  | _ => parseJsonChars clean

/-! ## String coercion and `parseInt`

The record builder runs `parseInt(rating)` on the extracted rating value.
JavaScript `parseInt` coerces its argument to a string, skips leading
whitespace, then reads an optional sign and the longest leading run of
decimal digits; with no digit it yields NaN (here `none`).  The hexadecimal
`0x` form of `parseInt` is not modelled; no payload of this API uses it. -/

mutual

/-- JavaScript `String(v)` for parsed JSON values: objects print as
`[object Object]`, arrays join their elements with commas. -/
def jsToString : JsonValue → String
  | JsonValue.null => "null"
  | JsonValue.bool true => "true"
  | JsonValue.bool false => "false"
  | JsonValue.num n => toString n
  | JsonValue.str s => s
  | JsonValue.arr xs => jsToStringElems xs
  | JsonValue.obj _ => "[object Object]"

/-- JavaScript array join with comma separators; `null` prints as the
empty string inside a join. -/
def jsToStringElems : JsonList → String
  | JsonList.nil => ""
  | JsonList.cons v JsonList.nil =>
    (match v with
     | JsonValue.null => ""
     | _ => jsToString v)
  | JsonList.cons v tl =>
    (match v with
     | JsonValue.null => ""
     | _ => jsToString v) ++ "," ++ jsToStringElems tl

end

/-- The longest leading run of decimal digits, or `none` when there is
none. -/
def leadingDigits? (cs : List Char) : Option Nat :=
  let ds := cs.takeWhile Char.isDigit
  if ds.isEmpty then none else some (digitsVal ds)

/-- Models `parseInt` on a character list: skip whitespace, optional sign,
leading digits. -/
def jsParseIntChars (cs : List Char) : Option Int :=
  match cs.dropWhile jsWhitespace with
  | '-' :: rest => (leadingDigits? rest).map (fun n => -(Int.ofNat n))
  | '+' :: rest => (leadingDigits? rest).map Int.ofNat
  | rest => (leadingDigits? rest).map Int.ofNat

/-- Models `parseInt(v)` for a parsed JSON value; `none` models NaN. -/
def jsParseInt (v : JsonValue) : Option Int :=
  jsParseIntChars (jsToString v).toList

/-! ## The POST /feedback handler

The handler extracts each logical field with `findValueInObject` over a
per-field list of acceptable key names, defaulting to the empty string
(or to `anonymous` for `userName`) via JavaScript `||`; collects the missing
required fields by truthiness tests in source order; and on success builds
the stored record with `parseInt(rating)` and a server-assigned
`createdAt`. -/

/-- The `fieldKeys.userMessage` list from the source. -/
def userMessageKeys : List String :=
  ["userMessage", "text", "query", "message", "input"]

/-- The `fieldKeys.botResponse` list from the source. -/
def botResponseKeys : List String :=
  ["botResponse", "lastBotResponse", "response", "answer", "output"]

/-- The `fieldKeys.feedback` list from the source. -/
def feedbackKeys : List String :=
  ["feedback", "userFeedback", "comment", "text"]

/-- The `fieldKeys.rating` list from the source. -/
def ratingKeys : List String :=
  ["rating", "score", "stars", "value"]

/-- The `fieldKeys.userId` list from the source. -/
def userIdKeys : List String :=
  ["userId", "conversationId", "id", "user_id", "from.id"]

/-- The `fieldKeys.userName` list from the source. -/
def userNameKeys : List String :=
  ["userName", "user", "name", "from.name"]

/-- JavaScript `x || dflt`: the left value when truthy, otherwise the
default.  A `null` result of the extractor (`none`) is falsy. -/
def jsOrDefault (found : Option JsonValue) (dflt : JsonValue) : JsonValue :=
  match found with
  | some w => if jsTruthy w then w else dflt
  | none => dflt

/-- The extraction `findValueInObject(parsedBody, keys)` with the empty
string as its falsy fallback — applied to every required field. -/
def extractOrEmpty (b : JsonValue) (keys : List String) : JsonValue :=
  jsOrDefault (findValueInObject b keys) (JsonValue.str "")

/-- The userName extraction, with the string `anonymous` as its falsy fallback. -/
def extractUserName (b : JsonValue) : JsonValue :=
  jsOrDefault (findValueInObject b userNameKeys) (JsonValue.str "anonymous")

/-- The required field names, in the order the source tests them. -/
def requiredFields : List String :=
  ["botResponse", "feedback", "rating", "userMessage", "userId"]

/-- The key list the source uses for a logical field name. -/
def fieldKeysOf : String → List String
  | "userMessage" => userMessageKeys
  | "botResponse" => botResponseKeys
  | "feedback" => feedbackKeys
  | "rating" => ratingKeys
  | "userId" => userIdKeys
  | "userName" => userNameKeys
  | _ => []

/-- The `missingFields` array of the handler: one truthiness check per
required field, in source order (`userName` is not checked). -/
def postMissingFields (b : JsonValue) : List String :=
  (if jsTruthy (extractOrEmpty b botResponseKeys) then [] else ["botResponse"]) ++
  (if jsTruthy (extractOrEmpty b feedbackKeys) then [] else ["feedback"]) ++
  (if jsTruthy (extractOrEmpty b ratingKeys) then [] else ["rating"]) ++
  (if jsTruthy (extractOrEmpty b userMessageKeys) then [] else ["userMessage"]) ++
  (if jsTruthy (extractOrEmpty b userIdKeys) then [] else ["userId"])

/-- The stored feedback record (`createdAt` is the server-assigned
timestamp; the extracted field values keep their JSON type, and `rating` is
the `parseInt` coercion, `none` for NaN). -/
structure FeedbackRecord where
  userMessage : JsonValue
  botResponse : JsonValue
  feedback : JsonValue
  rating : Option Int
  userId : JsonValue
  userName : JsonValue
  createdAt : String

/-- Outcome of the POST /feedback handler body (store assumed reachable):
400 with the missing-field list, or 201 with the stored record. -/
inductive PostResult where
  | badRequest (missingFields : List String)
  | created (stored : FeedbackRecord)

/-- The POST /feedback handler on an already-normalized body: validate,
then build and store the record. -/
def postOutcome (now : String) (b : JsonValue) : PostResult :=
  let missingFields := postMissingFields b
  if 0 < missingFields.length then PostResult.badRequest missingFields
  else
    PostResult.created
      ⟨extractOrEmpty b userMessageKeys,
       extractOrEmpty b botResponseKeys,
       extractOrEmpty b feedbackKeys,
       jsParseInt (extractOrEmpty b ratingKeys),
       extractOrEmpty b userIdKeys,
       extractUserName b,
       now⟩

/-! ## The request pipeline

Middleware and routes in registration order: the body normalizer (every
POST with a truthy body), the health route `GET /`, then — only when a
`MONGODB_URI` is configured — the availability middleware (503 when the
connection is down and reconnecting fails) followed by the two feedback
routes.  A request matching nothing falls through to the framework default 404.
`connDown` models a storage connection that is down and stays down
(reconnection inside the availability middleware fails too). -/

/-- An HTTP request method (the two the API serves). -/
inductive HttpMethod where
  | get
  | post
deriving DecidableEq

/-- Status code returned by the app for a request, following the
registration order of the tolerant-parsing variant. -/
def serve (uriConfigured connDown : Bool) (now : String)
    (m : HttpMethod) (path rawBody : String) : Nat :=
  let bodyOrErr : Except Nat JsonValue :=
    if m = HttpMethod.post ∧ rawBody ≠ "" then
      match normalizeBody rawBody with
      | Except.ok v => Except.ok v
      | Except.error _ => Except.error 400
    else Except.ok (JsonValue.str rawBody)
  match bodyOrErr with
  | Except.error code => code
  | Except.ok body =>
    if m = HttpMethod.get ∧ path = "/" then 200
    else if uriConfigured then
      if connDown then 503
      else if m = HttpMethod.post ∧ path = "/feedback" then
        (match postOutcome now body with
         | PostResult.badRequest _ => 400
         | PostResult.created _ => 201)
      else if m = HttpMethod.get ∧ path = "/feedback" then 200
      else 404
    else 404

/-! ## Spec-side observation functions and predicates

To state the claims, a few functions written from the vocabulary of the spec
(nesting depth, "no key matches anywhere", "every occurrence is falsy").
They observe the same structure the extractor walks. -/

/-- Collects depth-indexed match lists across the field values of an object. -/
def depthFields (f : JsonValue → List JsonValue) : JsonFields → List JsonValue
  | JsonFields.nil => []
  | JsonFields.cons _ v fs => f v ++ depthFields f fs

/-- Collects depth-indexed match lists across the elements of an array. -/
def depthElems (f : JsonValue → List JsonValue) : JsonList → List JsonValue
  | JsonList.nil => []
  | JsonList.cons v vs => f v ++ depthElems f vs

/-- The direct matches found at exactly nesting depth `d` below `v` (depth
0 is `v` itself), left to right. -/
def directMatchesAtDepth : Nat → JsonValue → List String → List JsonValue
  | 0, v, keys =>
    (match directMatch v keys with
     | some w => [w]
     | none => [])
  | d + 1, JsonValue.obj fs, keys =>
    depthFields (fun c => directMatchesAtDepth d c keys) fs
  | d + 1, JsonValue.arr xs, keys =>
    depthElems (fun c => directMatchesAtDepth d c keys) xs
  | _ + 1, _, _ => []

mutual

/-- No accepted key matches (in the direct-match sense: present with a
value other than `null` and the empty string) at `v` or anywhere below it. -/
def noMatchAnywhere : JsonValue → List String → Bool
  | JsonValue.obj fs, keys =>
    (directMatch (JsonValue.obj fs) keys).isNone && noMatchFields fs keys
  | JsonValue.arr xs, keys =>
    (directMatch (JsonValue.arr xs) keys).isNone && noMatchElems xs keys
  | _, _ => true

/-- The `noMatchAnywhere` check over the field values of an object. -/
def noMatchFields : JsonFields → List String → Bool
  | JsonFields.nil, _ => true
  | JsonFields.cons _ v fs, keys => noMatchAnywhere v keys && noMatchFields fs keys

/-- The `noMatchAnywhere` check over the elements of an array. -/
def noMatchElems : JsonList → List String → Bool
  | JsonList.nil, _ => true
  | JsonList.cons v vs, keys => noMatchAnywhere v keys && noMatchElems vs keys

end

/-- A falsy non-null value in the sense of the claim: the number 0 or `false`. -/
def isFalsy01 : JsonValue → Bool
  | JsonValue.num n => n == 0
  | JsonValue.bool b => !b
  | _ => false

/-- Every accepted key bound at `v` itself holds 0 or `false`. -/
def keysAllFalsyAt (v : JsonValue) (keys : List String) : Bool :=
  keys.all fun k =>
    match jsGet v k with
    | some w => isFalsy01 w
    | none => true

mutual

/-- Every occurrence of an accepted key, at `v` or anywhere below it,
holds 0 or `false`. -/
def occFalsyEverywhere : JsonValue → List String → Bool
  | JsonValue.obj fs, keys =>
    keysAllFalsyAt (JsonValue.obj fs) keys && occFalsyFields fs keys
  | JsonValue.arr xs, keys =>
    keysAllFalsyAt (JsonValue.arr xs) keys && occFalsyElems xs keys
  | _, _ => true

/-- The `occFalsyEverywhere` check over the field values of an object. -/
def occFalsyFields : JsonFields → List String → Bool
  | JsonFields.nil, _ => true
  | JsonFields.cons _ v fs, keys =>
    occFalsyEverywhere v keys && occFalsyFields fs keys

/-- The `occFalsyEverywhere` check over the elements of an array. -/
def occFalsyElems : JsonList → List String → Bool
  | JsonList.nil, _ => true
  | JsonList.cons v vs, keys =>
    occFalsyEverywhere v keys && occFalsyElems vs keys

end

/-! ## Concrete inputs used by counterexamples and witnesses -/

/-- Two sibling subtrees: the earlier one holds a match at depth 2, the
later one at depth 1. -/
def exDepthBody : JsonValue :=
  jobj [("x", jobj [("y", jobj [("k", JsonValue.str "deep")])]),
        ("z", jobj [("k", JsonValue.str "shallow")])]

/-- A body whose only `k` binding lives inside an array element. -/
def exArrayBody : JsonValue :=
  jobj [("a", jarr [jobj [("k", JsonValue.str "inArray")]])]

/-- A submission with `rating: 0` present at top level and `userId`
absent. -/
def exRatingZeroBody : JsonValue :=
  jobj [("userMessage", JsonValue.str "m"), ("botResponse", JsonValue.str "b"),
        ("feedback", JsonValue.str "f"), ("rating", JsonValue.num 0)]

/-- A body with no occurrence of the probed key anywhere. -/
def exNoMatchBody : JsonValue :=
  jobj [("a", jobj [("b", JsonValue.str "x")]), ("c", jarr [JsonValue.num 1])]

/-- A complete submission with the rating sent as the string `"5"`. -/
def exRatingStrBody : JsonValue :=
  jobj [("userMessage", JsonValue.str "m"), ("botResponse", JsonValue.str "b"),
        ("feedback", JsonValue.str "f"), ("rating", JsonValue.str "5"),
        ("userId", JsonValue.str "u")]

/-- The record the handler stores for `exRatingStrBody` at time `"t"`. -/
def exRatingStrRecord : FeedbackRecord :=
  ⟨JsonValue.str "m", JsonValue.str "b", JsonValue.str "f", some 5,
   JsonValue.str "u", JsonValue.str "anonymous", "t"⟩

/-- A complete submission without any userName-aliased key. -/
def exNoUserNameBody : JsonValue :=
  jobj [("userMessage", JsonValue.str "m2"), ("botResponse", JsonValue.str "b2"),
        ("feedback", JsonValue.str "f2"), ("rating", JsonValue.num 4),
        ("userId", JsonValue.str "u2")]

/-- A body whose only `k` binding is nested and holds 0. -/
def exNestedZeroBody : JsonValue :=
  jobj [("wrap", jobj [("k", JsonValue.num 0)])]

/-- JavaScript truthiness of an extractor result (`null` — `none` — is
falsy). -/
def jsTruthyOpt : Option JsonValue → Bool
  | none => false
  | some v => jsTruthy v

/-- The record the handler stores for `exNoUserNameBody` at time `"t"`. -/
def exNoUserNameRecord : FeedbackRecord :=
  ⟨JsonValue.str "m2", JsonValue.str "b2", JsonValue.str "f2", some 4,
   JsonValue.str "u2", JsonValue.str "anonymous", "t"⟩

/-! ## Helper lemmas -/

/-- A value none of whose listed keys is bound has no direct match. -/
theorem directMatch_none_of_absent (v : JsonValue) :
    ∀ keys : List String, (∀ k ∈ keys, jsGet v k = none) →
      directMatch v keys = none
  | [], _ => rfl
  | k :: ks, h => by
    rw [directMatch, h k (List.mem_cons_self k ks)]
    exact directMatch_none_of_absent v ks fun k2 hk2 => h k2 (List.mem_cons_of_mem k hk2)

/-- Only arrays and objects can produce an extraction result. -/
theorem isTypeofObject_of_find_some (x : JsonValue) (keys : List String)
    (w : JsonValue) (h : findValueInObject x keys = some w) :
    isTypeofObject x = true := by
  cases x with
  | obj fs => rfl
  | arr xs => rfl
  | null => exact absurd h (by simp [findValueInObject])
  | bool b => exact absurd h (by simp [findValueInObject])
  | num n => exact absurd h (by simp [findValueInObject])
  | str s => exact absurd h (by simp [findValueInObject])

/-- A value that is 0 or `false` is not skipped by the direct-match test
(only `null` and the empty string are). -/
theorem directSkip_eq_false_of_isFalsy01 (w : JsonValue)
    (h : isFalsy01 w = true) : directSkip w = false := by
  cases w <;> simp_all [isFalsy01, directSkip]

/-- A value that is 0 or `false` is falsy. -/
theorem jsTruthy_eq_false_of_isFalsy01 (w : JsonValue)
    (h : isFalsy01 w = true) : jsTruthy w = false := by
  cases w <;> simp_all [isFalsy01, jsTruthy]

/-- When every key bound at `v` holds 0 or `false`, any direct match is 0
or `false`. -/
theorem directMatch_falsy (v : JsonValue) :
    ∀ (keys : List String) (w : JsonValue), keysAllFalsyAt v keys = true →
      directMatch v keys = some w → isFalsy01 w = true
  | [], w, _, hd => by simp [directMatch] at hd
  | k :: ks, w, hall, hd => by
    rw [keysAllFalsyAt, List.all_cons] at hall
    obtain ⟨h1, h2⟩ := Bool.and_eq_true_iff.mp hall
    rw [directMatch] at hd
    cases hg : jsGet v k with
    | none =>
      rw [hg] at hd
      exact directMatch_falsy v ks w h2 hd
    | some u =>
      rw [hg] at hd
      rw [hg] at h1
      simp only at h1 hd
      rw [directSkip_eq_false_of_isFalsy01 u h1] at hd
      simp at hd
      subst hd
      exact h1

mutual

/-- When no accepted key matches anywhere in the structure, the extractor
returns `null`. -/
theorem noMatch_find_none : ∀ (v : JsonValue) (keys : List String),
    noMatchAnywhere v keys = true → findValueInObject v keys = none
  | JsonValue.null, _, _ => rfl
  | JsonValue.bool _, _, _ => rfl
  | JsonValue.num _, _, _ => rfl
  | JsonValue.str _, _, _ => rfl
  | JsonValue.obj fs, keys, h => by
    rw [noMatchAnywhere] at h
    obtain ⟨h1, h2⟩ := Bool.and_eq_true_iff.mp h
    have hd : directMatch (JsonValue.obj fs) keys = none :=
      Option.isNone_iff_eq_none.mp h1
    rw [findValueInObject, hd]
    exact noMatch_searchFields_none fs keys h2
  | JsonValue.arr xs, keys, h => by
    rw [noMatchAnywhere] at h
    obtain ⟨h1, h2⟩ := Bool.and_eq_true_iff.mp h
    have hd : directMatch (JsonValue.arr xs) keys = none :=
      Option.isNone_iff_eq_none.mp h1
    rw [findValueInObject, hd]
    exact noMatch_searchElems_none xs keys h2

/-- Companion of `noMatch_find_none` over the field values of an object. -/
theorem noMatch_searchFields_none : ∀ (fs : JsonFields) (keys : List String),
    noMatchFields fs keys = true → searchFields fs keys = none
  | JsonFields.nil, _, _ => rfl
  | JsonFields.cons k v fs, keys, h => by
    rw [noMatchFields] at h
    obtain ⟨h1, h2⟩ := Bool.and_eq_true_iff.mp h
    have hv := noMatch_find_none v keys h1
    rw [searchFields, hv]
    simp only [ite_self]
    exact noMatch_searchFields_none fs keys h2

/-- Companion of `noMatch_find_none` over the elements of an array. -/
theorem noMatch_searchElems_none : ∀ (xs : JsonList) (keys : List String),
    noMatchElems xs keys = true → searchElems xs keys = none
  | JsonList.nil, _, _ => rfl
  | JsonList.cons v vs, keys, h => by
    rw [noMatchElems] at h
    obtain ⟨h1, h2⟩ := Bool.and_eq_true_iff.mp h
    have hv := noMatch_find_none v keys h1
    rw [searchElems, hv]
    simp only [ite_self]
    exact noMatch_searchElems_none vs keys h2

end

mutual

/-- When every occurrence of an accepted key holds 0 or `false`, any
extraction result is itself 0 or `false` (it can only come from the direct
match at the root, since nested falsy results are dropped). -/
theorem occ_find_falsy : ∀ (v : JsonValue) (keys : List String) (r : JsonValue),
    occFalsyEverywhere v keys = true → findValueInObject v keys = some r →
      isFalsy01 r = true
  | JsonValue.null, _, _, _, hf => by simp [findValueInObject] at hf
  | JsonValue.bool _, _, _, _, hf => by simp [findValueInObject] at hf
  | JsonValue.num _, _, _, _, hf => by simp [findValueInObject] at hf
  | JsonValue.str _, _, _, _, hf => by simp [findValueInObject] at hf
  | JsonValue.obj fs, keys, r, hocc, hf => by
    rw [occFalsyEverywhere] at hocc
    obtain ⟨h1, h2⟩ := Bool.and_eq_true_iff.mp hocc
    rw [findValueInObject] at hf
    cases hd : directMatch (JsonValue.obj fs) keys with
    | some w =>
      rw [hd] at hf
      simp only [Option.some.injEq] at hf
      rw [← hf]
      exact directMatch_falsy (JsonValue.obj fs) keys w h1 hd
    | none =>
      rw [hd] at hf
      rw [occ_searchFields_none fs keys h2] at hf
      simp at hf
  | JsonValue.arr xs, keys, r, hocc, hf => by
    rw [occFalsyEverywhere] at hocc
    obtain ⟨h1, h2⟩ := Bool.and_eq_true_iff.mp hocc
    rw [findValueInObject] at hf
    cases hd : directMatch (JsonValue.arr xs) keys with
    | some w =>
      rw [hd] at hf
      simp only [Option.some.injEq] at hf
      rw [← hf]
      exact directMatch_falsy (JsonValue.arr xs) keys w h1 hd
    | none =>
      rw [hd] at hf
      rw [occ_searchElems_none xs keys h2] at hf
      simp at hf

/-- Under the all-occurrences-falsy hypothesis the nested search over an
values of an object finds nothing: every candidate from below is falsy and the
`if (found)` test drops it. -/
theorem occ_searchFields_none : ∀ (fs : JsonFields) (keys : List String),
    occFalsyFields fs keys = true → searchFields fs keys = none
  | JsonFields.nil, _, _ => rfl
  | JsonFields.cons k v fs, keys, h => by
    rw [occFalsyFields] at h
    obtain ⟨h1, h2⟩ := Bool.and_eq_true_iff.mp h
    rw [searchFields]
    cases hf : findValueInObject v keys with
    | none =>
      simp only [ite_self]
      exact occ_searchFields_none fs keys h2
    | some f =>
      have hfal := occ_find_falsy v keys f h1 hf
      simp only [jsTruthy_eq_false_of_isFalsy01 f hfal, Bool.false_eq_true,
        if_false, ite_self]
      exact occ_searchFields_none fs keys h2

/-- Companion of `occ_searchFields_none` over the elements of an array. -/
theorem occ_searchElems_none : ∀ (xs : JsonList) (keys : List String),
    occFalsyElems xs keys = true → searchElems xs keys = none
  | JsonList.nil, _, _ => rfl
  | JsonList.cons v vs, keys, h => by
    rw [occFalsyElems] at h
    obtain ⟨h1, h2⟩ := Bool.and_eq_true_iff.mp h
    rw [searchElems]
    cases hf : findValueInObject v keys with
    | none =>
      simp only [ite_self]
      exact occ_searchElems_none vs keys h2
    | some f =>
      have hfal := occ_find_falsy v keys f h1 hf
      simp only [jsTruthy_eq_false_of_isFalsy01 f hfal, Bool.false_eq_true,
        if_false, ite_self]
      exact occ_searchElems_none vs keys h2

end

/-- The `missingFields` list is exactly the required fields whose extracted
value is falsy, in the required-field order. -/
theorem postMissingFields_eq_filter (b : JsonValue) :
    postMissingFields b =
      requiredFields.filter fun f => !(jsTruthy (extractOrEmpty b (fieldKeysOf f))) := by
  cases h1 : jsTruthy (extractOrEmpty b botResponseKeys) <;>
  cases h2 : jsTruthy (extractOrEmpty b feedbackKeys) <;>
  cases h3 : jsTruthy (extractOrEmpty b ratingKeys) <;>
  cases h4 : jsTruthy (extractOrEmpty b userMessageKeys) <;>
  cases h5 : jsTruthy (extractOrEmpty b userIdKeys) <;>
  simp [postMissingFields, requiredFields, fieldKeysOf, List.filter, h1, h2, h3, h4, h5]

/-- A 201 outcome stores exactly the extracted fields, the `parseInt`
rating, the `userName` default and the server timestamp. -/
theorem postOutcome_created_eq (now : String) (b : JsonValue) (r : FeedbackRecord)
    (h : postOutcome now b = PostResult.created r) :
    r = ⟨extractOrEmpty b userMessageKeys, extractOrEmpty b botResponseKeys,
         extractOrEmpty b feedbackKeys, jsParseInt (extractOrEmpty b ratingKeys),
         extractOrEmpty b userIdKeys, extractUserName b, now⟩ := by
  by_cases hl : 0 < (postMissingFields b).length
  · have hbad : postOutcome now b = PostResult.badRequest (postMissingFields b) := by
      simp [postOutcome, hl]
    rw [hbad] at h
    exact absurd h (by simp)
  · have hok : postOutcome now b =
        PostResult.created
          ⟨extractOrEmpty b userMessageKeys, extractOrEmpty b botResponseKeys,
           extractOrEmpty b feedbackKeys, jsParseInt (extractOrEmpty b ratingKeys),
           extractOrEmpty b userIdKeys, extractUserName b, now⟩ := by
      simp [postOutcome, hl]
    rw [hok] at h
    injection h with he
    exact he.symm

/-- When no userName alias extracts a truthy value, the anonymous fallback
applies. -/
theorem extractUserName_anon (b : JsonValue)
    (h : jsTruthyOpt (findValueInObject b userNameKeys) = false) :
    extractUserName b = JsonValue.str "anonymous" := by
  cases hf : findValueInObject b userNameKeys with
  | none => simp [extractUserName, jsOrDefault, hf]
  | some v =>
    rw [hf] at h
    simp only [jsTruthyOpt] at h
    simp [extractUserName, jsOrDefault, hf, h]

/-! ## The claims -/

/-- C1: the spec says a trimmed body starting with an equals sign followed
by an opening curly bracket has only the leading equals sign stripped, so
the canonical Copilot Studio body — equals sign, then the JSON object
binding the field a to 1 — normalizes to that object.  The code instead
slices from index 2, removing both leading characters; the remainder is no
longer JSON, so that body fails with a parse error — while the same body
with only the equals sign stripped parses to exactly the object the spec
promises.  (String literals below write the curly brackets and the double
quote by their hexadecimal escapes.) -/
theorem C1_normalizer_rejects_copilot_body :
    (normalizeBody "=\x7b\x22a\x22:1\x7d").toOption = none ∧
    parseJson "\x7b\x22a\x22:1\x7d" = Except.ok (jobj [("a", JsonValue.num 1)]) :=
  ⟨rfl, rfl⟩

/-- C2 counterexample: the claim says a match at a shallower nesting depth
is always returned in preference to a deeper one.  In `exDepthBody` the
probed key has no depth-0 match, one match at depth 1 (`"shallow"`, in the
later sibling) and one at depth 2 (`"deep"`, in the earlier sibling); the
extractor returns the deeper `"deep"`, because its traversal is depth-first
in field order, not breadth-first. -/
theorem C2_counterexample :
    directMatchesAtDepth 0 exDepthBody ["k"] = [] ∧
    directMatchesAtDepth 1 exDepthBody ["k"] = [JsonValue.str "shallow"] ∧
    directMatchesAtDepth 2 exDepthBody ["k"] = [JsonValue.str "deep"] ∧
    findValueInObject exDepthBody ["k"] = some (JsonValue.str "deep") ∧
    JsonValue.str "deep" ≠ JsonValue.str "shallow" :=
  ⟨rfl, rfl, rfl, rfl, by simp⟩

/-- C2 (amended): direct key matches at the current object, checked in
listed key order, are returned in preference to any match inside nested
values — and since this holds for arbitrary `v`, it holds at every level of
the recursion.  (The further assertion of the original claim that shallower
matches always beat deeper ones across sibling subtrees is refuted by
`C2_counterexample`.) -/
theorem C2_direct_match_priority (v : JsonValue) (keys : List String)
    (w : JsonValue) (h : directMatch v keys = some w) :
    findValueInObject v keys = some w := by
  cases v with
  | obj fs => rw [findValueInObject, h]
  | arr xs => rw [findValueInObject, h]
  | null =>
    rw [directMatch_none_of_absent JsonValue.null keys fun k _ => rfl] at h
    exact Option.noConfusion h
  | bool b =>
    rw [directMatch_none_of_absent (JsonValue.bool b) keys fun k _ => rfl] at h
    exact Option.noConfusion h
  | num n =>
    rw [directMatch_none_of_absent (JsonValue.num n) keys fun k _ => rfl] at h
    exact Option.noConfusion h
  | str s =>
    rw [directMatch_none_of_absent (JsonValue.str s) keys fun k _ => rfl] at h
    exact Option.noConfusion h

/-- C2 witness: a direct binding of the first key is returned. -/
theorem C2_direct_match_priority_witness :
    directMatch (jobj [("k", JsonValue.str "w")]) ["k"] = some (JsonValue.str "w") ∧
    findValueInObject (jobj [("k", JsonValue.str "w")]) ["k"] = some (JsonValue.str "w") :=
  ⟨rfl, C2_direct_match_priority _ _ _ rfl⟩

/-- C3 counterexample: the claim says a key/value occurring only inside an
array element is never found.  In `exArrayBody` the only binding of `k`
lives inside an element of the array under `a`, and the extractor finds it:
in JavaScript an array is of typeof object, so the recursion descends into
arrays exactly as into objects. -/
theorem C3_counterexample :
    findValueInObject exArrayBody ["k"] = some (JsonValue.str "inArray") := rfl

/-- C3 (amended): the extractor descends into every child of JavaScript
typeof object, which includes arrays: when an array has no direct
(index/length) match, a truthy result found inside its first element is
returned. -/
theorem C3_array_descent (x : JsonValue) (xs : JsonList) (keys : List String)
    (w : JsonValue) (h1 : findValueInObject x keys = some w)
    (h2 : jsTruthy w = true)
    (h3 : directMatch (JsonValue.arr (JsonList.cons x xs)) keys = none) :
    findValueInObject (JsonValue.arr (JsonList.cons x xs)) keys = some w := by
  rw [findValueInObject, h3, searchElems]
  simp [isTypeofObject_of_find_some x keys w h1, h1, h2]

/-- C3 witness: a match inside an array element is found. -/
theorem C3_array_descent_witness :
    findValueInObject (jobj [("k", JsonValue.str "w3")]) ["k"] = some (JsonValue.str "w3") ∧
    jsTruthy (JsonValue.str "w3") = true ∧
    directMatch (JsonValue.arr (JsonList.cons (jobj [("k", JsonValue.str "w3")]) JsonList.nil)) ["k"] = none ∧
    findValueInObject (JsonValue.arr (JsonList.cons (jobj [("k", JsonValue.str "w3")]) JsonList.nil)) ["k"]
      = some (JsonValue.str "w3") :=
  ⟨rfl, rfl, rfl, C3_array_descent _ _ _ _ rfl rfl rfl⟩

/-- C4 counterexample: the claim counts a field as missing only when it is
absent, `null` or the empty string after extraction.  In
`exRatingZeroBody` the field
`rating` is present at top level with the value 0 — extraction returns 0 —
yet the handler lists `rating` among `missingFields` (the empty-string
fallback and the truthiness test treat every falsy value as missing), so
the reported
set is not the set of absent fields. -/
theorem C4_counterexample :
    jsGet exRatingZeroBody "rating" = some (JsonValue.num 0) ∧
    findValueInObject exRatingZeroBody ratingKeys = some (JsonValue.num 0) ∧
    postMissingFields exRatingZeroBody = ["rating", "userId"] ∧
    postOutcome "t" exRatingZeroBody = PostResult.badRequest ["rating", "userId"] :=
  ⟨rfl, rfl, rfl, rfl⟩

/-- C4 (amended): on any submission with a nonempty missing-field list the
response is 400 carrying that list, and the list is exactly the required
fields whose extracted value is falsy — absent, `null`, the empty string,
and also `0` or `false` (which the extraction fallback turns into the
empty string) — every
such field, in the order the source checks them, and no field whose
extracted value is truthy. -/
theorem C4_missing_fields_exact (now : String) (b : JsonValue)
    (h : postMissingFields b ≠ []) :
    postOutcome now b = PostResult.badRequest (postMissingFields b) ∧
    postMissingFields b =
      requiredFields.filter fun f => !(jsTruthy (extractOrEmpty b (fieldKeysOf f))) := by
  constructor
  · have hl : 0 < (postMissingFields b).length := List.length_pos.mpr h
    simp [postOutcome, hl]
  · exact postMissingFields_eq_filter b

/-- C4 witness: the empty submission is rejected with all five required
fields listed. -/
theorem C4_missing_fields_exact_witness :
    postMissingFields (jobj []) ≠ [] ∧
    postOutcome "t" (jobj []) = PostResult.badRequest (postMissingFields (jobj [])) ∧
    postMissingFields (jobj []) =
      requiredFields.filter fun f => !(jsTruthy (extractOrEmpty (jobj []) (fieldKeysOf f))) := by
  have h := C4_missing_fields_exact "t" (jobj []) (by decide)
  exact ⟨by decide, h.1, h.2⟩

/-- C5: with the storage connection down (and reconnection failing), POST
/feedback and GET /feedback answer 503 from the availability middleware,
while GET / answers 200 from the health route, which is registered before
that middleware.  The POST body is assumed empty or parseable, so that the
body-normalizer middleware (registered before everything) does not answer
400 first. -/
theorem C5_store_unavailable (now rawBody : String)
    (h : rawBody = "" ∨ ∃ v, normalizeBody rawBody = Except.ok v) :
    serve true true now HttpMethod.post "/feedback" rawBody = 503 ∧
    serve true true now HttpMethod.get "/feedback" rawBody = 503 ∧
    serve true true now HttpMethod.get "/" rawBody = 200 := by
  refine ⟨?_, by simp [serve], by simp [serve]⟩
  rcases h with h | ⟨v, hv⟩
  · subst h; rfl
  · by_cases hb : rawBody = ""
    · subst hb; rfl
    · simp [serve, hv, hb]

/-- C5 witness: the three routes at an empty body. -/
theorem C5_store_unavailable_witness :
    ("" = "" ∨ ∃ v, normalizeBody "" = Except.ok v) ∧
    serve true true "t" HttpMethod.post "/feedback" "" = 503 ∧
    serve true true "t" HttpMethod.get "/feedback" "" = 503 ∧
    serve true true "t" HttpMethod.get "/" "" = 200 := by
  have h := C5_store_unavailable "t" "" (Or.inl rfl)
  exact ⟨Or.inl rfl, h.1, h.2.1, h.2.2⟩

/-- C6: the extractor is a total function (its definition is accepted by
structural recursion on the input value, the formal counterpart of
"bounded by input depth, no cycles in freshly parsed JSON"), and when no
accepted key matches anywhere in the structure it returns the `null`
sentinel. -/
theorem C6_no_match_returns_null (v : JsonValue) (keys : List String)
    (h : noMatchAnywhere v keys = true) : findValueInObject v keys = none :=
  noMatch_find_none v keys h

/-- C6 witness: a nested body without the probed key yields the
sentinel. -/
theorem C6_no_match_returns_null_witness :
    noMatchAnywhere exNoMatchBody ["missing"] = true ∧
    findValueInObject exNoMatchBody ["missing"] = none :=
  ⟨rfl, C6_no_match_returns_null exNoMatchBody ["missing"] rfl⟩

/-- C7: every accepted submission stores `parseInt` of the extracted rating
value as the rating of the record; the witness below instantiates this with the
string `"5"` stored as the integer 5. -/
theorem C7_rating_coercion (now : String) (b : JsonValue) (r : FeedbackRecord)
    (h : postOutcome now b = PostResult.created r) :
    r.rating = jsParseInt (extractOrEmpty b ratingKeys) := by
  rw [postOutcome_created_eq now b r h]

/-- C7 witness: `rating: "5"` is stored as the integer 5. -/
theorem C7_rating_coercion_witness :
    postOutcome "t" exRatingStrBody = PostResult.created exRatingStrRecord ∧
    exRatingStrRecord.rating = jsParseInt (extractOrEmpty exRatingStrBody ratingKeys) ∧
    exRatingStrRecord.rating = some 5 :=
  ⟨rfl, C7_rating_coercion "t" exRatingStrBody exRatingStrRecord rfl, rfl⟩

/-- C8: in the tolerant variant `userName` is never among the missing
fields (the validation does not check it), and when no userName alias
extracts a truthy value any stored record carries the default
`"anonymous"`. -/
theorem C8_username_defaults_anonymous (now : String) (b : JsonValue)
    (h : jsTruthyOpt (findValueInObject b userNameKeys) = false) :
    "userName" ∉ postMissingFields b ∧
    ∀ r : FeedbackRecord, postOutcome now b = PostResult.created r →
      r.userName = JsonValue.str "anonymous" := by
  constructor
  · rw [postMissingFields_eq_filter]
    intro hmem
    exact absurd (List.mem_filter.mp hmem).1 (by decide)
  · intro r hr
    rw [postOutcome_created_eq now b r hr]
    exact extractUserName_anon b h

/-- C8 witness: a complete submission without any userName alias is
accepted and stored with `userName = "anonymous"`. -/
theorem C8_username_defaults_anonymous_witness :
    jsTruthyOpt (findValueInObject exNoUserNameBody userNameKeys) = false ∧
    postOutcome "t" exNoUserNameBody = PostResult.created exNoUserNameRecord ∧
    "userName" ∉ postMissingFields exNoUserNameBody ∧
    exNoUserNameRecord.userName = JsonValue.str "anonymous" := by
  have h := C8_username_defaults_anonymous "t" exNoUserNameBody rfl
  exact ⟨rfl, rfl, h.1, h.2 exNoUserNameRecord rfl⟩

/-- C9: when every occurrence of an accepted key holds a falsy non-null
value (0 or `false`) and none occurs directly on the top-level object, the
extractor returns `null` — while a direct top-level binding of the same
falsy value would be returned (the direct-match test only skips `null` and
the empty string; the truthiness filter applies only to nested
results). -/
theorem C9_nested_falsy_not_found (b : JsonValue) (keys : List String)
    (h1 : occFalsyEverywhere b keys = true)
    (h2 : (keys.all fun k => (jsGet b k).isNone) = true) :
    findValueInObject b keys = none ∧
    ∀ (v : JsonValue) (k : String), isFalsy01 v = true →
      findValueInObject (jobj [(k, v)]) [k] = some v := by
  constructor
  · have habs : ∀ k ∈ keys, jsGet b k = none := by
      intro k hk
      exact Option.isNone_iff_eq_none.mp (List.all_eq_true.mp h2 k hk)
    have hd := directMatch_none_of_absent b keys habs
    cases b with
    | null => rfl
    | bool x => rfl
    | num x => rfl
    | str x => rfl
    | obj fs =>
      rw [findValueInObject, hd]
      rw [occFalsyEverywhere] at h1
      exact occ_searchFields_none fs keys (Bool.and_eq_true_iff.mp h1).2
    | arr xs =>
      rw [findValueInObject, hd]
      rw [occFalsyEverywhere] at h1
      exact occ_searchElems_none xs keys (Bool.and_eq_true_iff.mp h1).2
  · intro v k hfal
    simp [jobj, jsonFieldsOf, findValueInObject, directMatch, jsGet, lookupField,
      directSkip_eq_false_of_isFalsy01 v hfal]

/-- C9 witness: a nested `k: 0` is reported as not found, while a direct
top-level `k: 0` is returned. -/
theorem C9_nested_falsy_not_found_witness :
    occFalsyEverywhere exNestedZeroBody ["k"] = true ∧
    (["k"].all fun k => (jsGet exNestedZeroBody k).isNone) = true ∧
    findValueInObject exNestedZeroBody ["k"] = none ∧
    findValueInObject (jobj [("k", JsonValue.num 0)]) ["k"] = some (JsonValue.num 0) := by
  have h := C9_nested_falsy_not_found exNestedZeroBody ["k"] rfl rfl
  exact ⟨rfl, rfl, h.1, h.2 (JsonValue.num 0) "k" rfl⟩

/-- C10: in the tolerant variant with no database connection string
configured, the feedback routes and the availability middleware are never
registered (they live inside the if-block guarded by the configured
connection string), so POST /feedback and
GET /feedback fall through to the framework default 404 — never 503 — while GET /
still answers 200.  The POST body is assumed empty or parseable, since the
body normalizer is registered outside the `if (uri)` block and answers 400
on a malformed body regardless. -/
theorem C10_routes_not_registered (now rawBody : String) (connDown : Bool)
    (h : rawBody = "" ∨ ∃ v, normalizeBody rawBody = Except.ok v) :
    serve false connDown now HttpMethod.post "/feedback" rawBody = 404 ∧
    serve false connDown now HttpMethod.get "/feedback" rawBody = 404 ∧
    serve false connDown now HttpMethod.get "/" rawBody = 200 := by
  refine ⟨?_, by simp [serve], by simp [serve]⟩
  rcases h with h | ⟨v, hv⟩
  · subst h; rfl
  · by_cases hb : rawBody = ""
    · subst hb; rfl
    · simp [serve, hv, hb]

/-- C10 witness: the three routes at an empty body, connection state
irrelevant. -/
theorem C10_routes_not_registered_witness :
    ("" = "" ∨ ∃ v, normalizeBody "" = Except.ok v) ∧
    serve false true "t" HttpMethod.post "/feedback" "" = 404 ∧
    serve false true "t" HttpMethod.get "/feedback" "" = 404 ∧
    serve false true "t" HttpMethod.get "/" "" = 200 := by
  have h := C10_routes_not_registered "t" "" true (Or.inl rfl)
  exact ⟨Or.inl rfl, h.1, h.2.1, h.2.2⟩
